import Mathlib

/-!
# Verification of the Form-with-AI frontend

A shallow embedding of the browser-side logic of the Form-with-AI
repository (`Form-with-AI-Frontend/src/App.jsx` and
`components/FormBuilder.jsx`), together with theorems settling the
specification claims about that logic.

JavaScript values reaching the merge functions are modelled by the
inductive `JSVal`.  Strings are Lean strings; JS string operations
(`trim`, `includes`, `replace(/\D/g, "")`) are modelled over the
underlying character list so that all definitions evaluate inside the
kernel.  Event handlers become explicit state-transition functions:
the DOM/network side is a parameter (a `FetchOutcome`, a speech event,
a timestamp), and the handler maps an application state to the next
application state.
-/

/-- A JavaScript value as it can appear in a backend payload.
`obj` carries the own enumerable properties in insertion order
(keys are assumed distinct, as in any actual JS object). -/
inductive JSVal where
  | str (s : String)
  | num (n : Int)
  | boolean (b : Bool)
  | null
  | undefined
  | obj (fields : List (String × JSVal))

/-- JS truthiness: `""`, `0`, `false`, `null`, `undefined` are falsy;
every object is truthy. -/
def JSVal.truthy : JSVal → Bool
  | .str s => !s.isEmpty
  | .num n => n != 0
  | .boolean b => b
  | .null => false
  | .undefined => false
  | .obj _ => true

/-- The result of the JS `typeof` operator (note `typeof null = "object"`). -/
def JSVal.typeOf : JSVal → String
  | .str _ => "string"
  | .num _ => "number"
  | .boolean _ => "boolean"
  | .null => "object"
  | .undefined => "undefined"
  | .obj _ => "object"

/-- Property access `v[k]` on an object; `undefined` for a missing key.
(The code only dereferences values it has checked to be truthy objects.) -/
def JSVal.getProp : JSVal → String → JSVal
  | .obj fields, k =>
    match fields.find? (fun p => p.1 == k) with
    | some p => p.2
    | none => .undefined
  | _, _ => .undefined

/-- JS `a || b`: the first operand if truthy, otherwise the second. -/
def jsOr (a b : JSVal) : JSVal :=
  if a.truthy then a else b

/-- Strict equality `v === s` against a string literal. -/
def JSVal.eqStr : JSVal → String → Bool
  | .str t, s => t == s
  | _, _ => false

/-- JS `String.prototype.trim`: drop whitespace from both ends.
Modelled over the character list. -/
def strTrim (s : String) : String :=
  String.mk (((s.data.dropWhile Char.isWhitespace).reverse.dropWhile
      Char.isWhitespace).reverse)

/-- JS `String.prototype.includes(c)` for a single character. -/
def strContainsChar (s : String) (c : Char) : Bool :=
  s.data.any (fun a => a == c)

/-- JS `s.replace(/\D/g, "")`: the decimal digits of `s`, in order. -/
def digitsOnly (s : String) : List Char :=
  s.data.filter Char.isDigit

/-! ## The legacy form-update merge (`updateLegacyFormData`, App.jsx) -/

/-- The four legacy form fields. -/
inductive FieldName where
  | fullName
  | email
  | phone
  | dob
deriving DecidableEq, Repr

/-- The `fieldMappings` table: backend key to frontend field name. -/
def fieldMappings (k : String) : Option FieldName :=
  if k == "full_name" then some .fullName
  else if k == "fullName" then some .fullName
  else if k == "email" then some .email
  else if k == "phone" then some .phone
  else if k == "dob" then some .dob
  else none

/-- The legacy form state (`legacyFormData`). -/
structure LegacyFormData where
  fullName : String
  email : String
  phone : String
  dob : String
deriving DecidableEq, Repr

def getField (st : LegacyFormData) : FieldName → String
  | .fullName => st.fullName
  | .email => st.email
  | .phone => st.phone
  | .dob => st.dob

def setField (st : LegacyFormData) : FieldName → String → LegacyFormData
  | .fullName, v => { st with fullName := v }
  | .email, v => { st with email := v }
  | .phone, v => { st with phone := v }
  | .dob, v => { st with dob := v }

/-- Value extraction for one reported field (`updateLegacyFormData`):
a plain string is taken as is; a truthy object yields
`fieldData.value || fieldData.collected || fieldData.data ||
(fieldData.status === "collected" ? fieldData.value : "") || ""`;
anything else leaves the initial `""`. -/
def extractValue (fieldData : JSVal) : JSVal :=
  if fieldData.typeOf == "string" then fieldData
  else if fieldData.truthy && (fieldData.typeOf == "object") then
    jsOr (fieldData.getProp "value")
      (jsOr (fieldData.getProp "collected")
        (jsOr (fieldData.getProp "data")
          (jsOr (if (fieldData.getProp "status").eqStr "collected" then
                   fieldData.getProp "value"
                 else .str "")
            (.str ""))))
  else .str ""

/-- The acceptance guard
`value && typeof value === "string" && value.trim() && value !== "[object Object]"`;
on success the stored value is `value.trim()`. -/
def acceptedString (value : JSVal) : Option String :=
  match value with
  | .str s =>
    if !s.isEmpty && !(strTrim s).isEmpty && s != "[object Object]" then
      some (strTrim s)
    else none
  | _ => none

/-- Processing of one `Object.entries(updates)` element. -/
def processEntry (st : LegacyFormData) (e : String × JSVal) : LegacyFormData :=
  match fieldMappings e.1 with
  | none => st
  | some f =>
    match acceptedString (extractValue e.2) with
    | none => st
    | some cleanValue => setField st f cleanValue

/-- The `Object.entries(updates).forEach` loop of `updateLegacyFormData`
(before the phone formatting step). -/
def applyUpdatesLoop (st : LegacyFormData) (entries : List (String × JSVal)) :
    LegacyFormData :=
  entries.foldl processEntry st

/-- The `FORMAT PHONE NUMBER` step: if the phone value is truthy, has no
`(`, and strips to exactly 10 digits, rewrite it as `(ddd) ddd-dddd`. -/
def formatPhoneStep (st : LegacyFormData) : LegacyFormData :=
  if !st.phone.isEmpty && !(strContainsChar st.phone '(') then
    let digits := digitsOnly st.phone
    if digits.length == 10 then
      { st with phone :=
          "(" ++ String.mk (digits.take 3) ++ ") "
              ++ String.mk ((digits.drop 3).take 3) ++ "-"
              ++ String.mk (digits.drop 6) }
    else st
  else st

/-- The function `updateLegacyFormData`: the guard
`if (!updates || typeof updates !== "object") return;` admits exactly
objects (`null` has typeof object but is falsy), then the entries loop
runs followed by the phone formatting step. -/
def updateLegacyFormData (st : LegacyFormData) (updates : JSVal) :
    LegacyFormData :=
  match updates with
  | .obj entries => formatPhoneStep (applyUpdatesLoop st entries)
  | _ => st

/-! ## The dynamic `form_summary` merge (`dynamicBackendChat`, App.jsx) -/

/-- JS object assignment `o[k] = v`: replace the value of an existing
key in place, otherwise append the new key. -/
def assocSet (l : List (String × JSVal)) (k : String) (v : JSVal) :
    List (String × JSVal) :=
  if l.any (fun p => p.1 == k) then
    l.map (fun p => if p.1 == k then (k, v) else p)
  else l ++ [(k, v)]

/-- Lookup of a key in an object modelled as an entry list. -/
def assocGet (l : List (String × JSVal)) (k : String) : Option JSVal :=
  (l.find? (fun p => p.1 == k)).map (fun p => p.2)

/-- The `newFormData` accumulation of `dynamicBackendChat`: a field of
`data.form_summary.fields` is collected exactly when
`fieldInfo.value && fieldInfo.status === "collected"`. -/
def collectDynUpdates (fields : List (String × JSVal)) :
    List (String × JSVal) :=
  fields.foldl
    (fun acc p =>
      if (p.2.getProp "value").truthy && (p.2.getProp "status").eqStr "collected"
      then assocSet acc p.1 (p.2.getProp "value")
      else acc)
    []

/-- Spread update `setFormData(prev => ({ ...prev, ...newFormData }))`: the collected
fields override `prev` key by key. -/
def mergeDynFormData (prev fields : List (String × JSVal)) :
    List (String × JSVal) :=
  (collectDynUpdates fields).foldl (fun acc p => assocSet acc p.1 p.2) prev

/-! ## Chat state and the message list (App.jsx) -/

/-- One entry of the `messages` list. -/
structure ChatMessage where
  text : String
  who : String
  timestamp : String := ""
  action : Option String := none
  tone : Option String := none
  isError : Bool := false
  isVoice : Bool := false
  isSuccess : Bool := false
deriving DecidableEq, Repr

/-- The `sessionStatus` record. -/
structure SessionStatus where
  completed : Bool
  currentField : Option String
  frustrationLevel : Int
deriving DecidableEq, Repr

/-- The slice of component state read and written by `legacyBackendChat`. -/
structure LegacyAppState where
  messages : List ChatMessage
  status : String
  legacyFormData : LegacyFormData
  sessionStatus : SessionStatus
deriving DecidableEq, Repr

/-- A parsed successful `/chat` response body.  Absent `reply` /
`audio_b64` are modelled by `""` (both falsy and absent values skip the
corresponding branch); an absent `session_status` by `none`; `updates`
is kept as a raw `JSVal` because `updateLegacyFormData` re-validates it. -/
structure ChatResponse where
  reply : String := ""
  action : Option String := none
  tone : Option String := none
  sessionStatus : Option SessionStatus := none
  updates : JSVal := .undefined
  audioB64 : String := ""

/-- The outcome of one `/chat` request: a parsed body, a non-`ok`
HTTP response (the handler throws `HTTP ${status}: ${statusText}`),
or any other thrown error (fetch rejection, JSON parse failure)
with its `message`. -/
inductive FetchOutcome where
  | success (data : ChatResponse)
  | httpFailure (code : Nat) (statusText : String)
  | thrown (msg : String)

/-- The `err.message` observed by the `catch` block, `none` on success. -/
def outcomeErrMessage : FetchOutcome → Option String
  | .success _ => none
  | .httpFailure code statusText => some ("HTTP " ++ Nat.repr code ++ ": " ++ statusText)
  | .thrown msg => some msg

/-- The inline error message text of the `catch` block of
`legacyBackendChat` and `dynamicBackendChat`. -/
def connectionErrorText (m : String) : String :=
  "Connection error: " ++ m ++ ". Please check if the backend is running."

/-- One `legacyBackendChat` turn as a state transition: given the
request outcome and the timestamp, produce the final component state
(audio playback is external and does not touch this state slice). -/
def legacyBackendChatStep (st : LegacyAppState) (outcome : FetchOutcome)
    (ts : String) : LegacyAppState :=
  match outcome with
  | .success data =>
    let st1 : LegacyAppState := { st with status := "idle" }
    let st2 : LegacyAppState :=
      if !data.reply.isEmpty then
        { st1 with messages := st1.messages ++
            [{ text := data.reply, who := "agent", timestamp := ts,
               action := data.action, tone := data.tone }] }
      else st1
    let st3 : LegacyAppState :=
      match data.sessionStatus with
      | some s => { st2 with sessionStatus := s }
      | none => st2
    if data.updates.truthy then
      { st3 with legacyFormData := updateLegacyFormData st3.legacyFormData data.updates }
    else st3
  | .httpFailure code statusText =>
    { st with
      status := "error"
      messages := st.messages ++
        [{ text := connectionErrorText ("HTTP " ++ Nat.repr code ++ ": " ++ statusText),
           who := "agent", timestamp := ts, isError := true }] }
  | .thrown msg =>
    { st with
      status := "error"
      messages := st.messages ++
        [{ text := connectionErrorText msg,
           who := "agent", timestamp := ts, isError := true }] }

/-! ## `handleSend` (App.jsx) -/

/-- The state slice touched by `handleSend` before the network call. -/
structure SendState where
  messages : List ChatMessage
  inputText : String
  status : String
deriving DecidableEq, Repr

/-- The handler `handleSend` up to the chat call: on trimmed-empty input it returns
immediately; otherwise it appends the user message, clears the input,
and hands the trimmed message to the backend chat (the `Option`). -/
def handleSendStep (st : SendState) (ts : String) : SendState × Option String :=
  let message := strTrim st.inputText
  if message.isEmpty then (st, none)
  else
    ({ messages := st.messages ++ [{ text := message, who := "user", timestamp := ts }]
       inputText := ""
       status := st.status },
     some message)

/-! ## `handleMic` (App.jsx) -/

/-- One alternative of a speech recognition result.  The confidence
score (a float in `[0, 1]`) is kept in thousandths; the handler never
reads it, so only its presence matters. -/
structure SRAlternative where
  transcript : String
  confidenceMilli : Int
deriving DecidableEq, Repr

/-- One element of `e.results`. -/
structure SRResult where
  alternatives : List SRAlternative
  isFinal : Bool
deriving DecidableEq, Repr

/-- A speech recognition result event. -/
structure SREvent where
  results : List SRResult
deriving DecidableEq, Repr

/-- Access `e.results[0][0].transcript`; `none` models the `TypeError` the
handler would raise on an event with no results or no alternatives
(the browser never delivers such an event). -/
def onResultTranscript (e : SREvent) : Option String :=
  (e.results.head?.bind (fun r => r.alternatives.head?)).map
    (fun a => a.transcript)

/-- The state slice touched by the `rec.onresult` / `rec.onerror`
handlers of `handleMic`. -/
structure MicState where
  messages : List ChatMessage
  status : String
deriving DecidableEq, Repr

/-- The `rec.onresult` handler: append the transcript as a voice user
message and hand it to the backend chat (the returned `String`).  The
status is untouched here; the subsequent chat call sets `"waiting..."`. -/
def micResultStep (st : MicState) (e : SREvent) (ts : String) :
    Option (MicState × String) :=
  (onResultTranscript e).map
    (fun text =>
      ({ st with messages := st.messages ++
           [{ text := text, who := "user", timestamp := ts, isVoice := true }] },
       text))

/-- The advisory text of the `rec.onerror` handler. -/
def micErrorText (err : String) : String :=
  "Speech recognition error: " ++ err ++ ". Please try typing instead."

/-- The `rec.onerror` handler: set the error status and append the
advisory message (the delayed reset to `"idle"` is `micErrorTimeout`). -/
def micErrorStep (st : MicState) (err : String) (ts : String) : MicState :=
  { messages := st.messages ++
      [{ text := micErrorText err, who := "agent", timestamp := ts, isError := true }]
    status := "error" }

/-- The `setTimeout(() => setStatus("idle"), 2000)` continuation. -/
def micErrorTimeout (st : MicState) : MicState :=
  { st with status := "idle" }

/-- Modelled from the spec: the finalized transcript the capture
heuristic of spec section 4.1 would emit — the concatenation of the
text of the final results of the event (first alternative each).
The source has no such accumulation; this definition exists only to be
compared against the code. -/
def specFinalTranscript (e : SREvent) : String :=
  String.join ((e.results.filter (fun r => r.isFinal)).map
    (fun r => ((r.alternatives.head?.map (fun a => a.transcript)).getD "")))

/-! ## The form builder (`FormBuilder.jsx`) -/

/-- One field descriptor of the builder state.  `requiredFlag` models
`validation.required`. -/
structure BuilderField where
  id : String
  name : String
  fieldType : String
  label : String
  description : String
  placeholder : String
  requiredFlag : Bool
  order : Nat
  options : Option (List String)
  scaleMin : Option Int
  scaleMax : Option Int
  scaleMinLabel : Option String
  scaleMaxLabel : Option String
deriving DecidableEq, Repr

/-- The operation `addField(type)`: append a new descriptor whose `id` is the current
clock value (`Date.now().toString()`, passed in as `now`) and whose
name is `field_${fields.length + 1}`. -/
def addField (now : String) (ftype : String) (fields : List BuilderField) :
    List BuilderField :=
  fields ++
    [{ id := now
       name := "field_" ++ Nat.repr (fields.length + 1)
       fieldType := ftype
       label := "Untitled Question"
       description := ""
       placeholder := ""
       requiredFlag := false
       order := fields.length
       options :=
         if ftype == "multiple_choice" || ftype == "checkboxes" || ftype == "dropdown"
         then some ["Option 1"] else none
       scaleMin := if ftype == "linear_scale" then some 1 else none
       scaleMax := if ftype == "linear_scale" then some 5 else none
       scaleMinLabel := if ftype == "linear_scale" then some "Low" else none
       scaleMaxLabel := if ftype == "linear_scale" then some "High" else none }]

/-- The operation `removeField(fieldId)`: keep the fields whose id differs. -/
def removeField (fid : String) (fields : List BuilderField) :
    List BuilderField :=
  fields.filter (fun f => f.id != fid)

/-- A `{ ...field, ...updates }` patch: `none` leaves the component
of the descriptor unchanged. -/
structure FieldUpdates where
  name : Option String := none
  label : Option String := none
  description : Option String := none
  options : Option (Option (List String)) := none
  requiredFlag : Option Bool := none
  scaleMin : Option (Option Int) := none
  scaleMax : Option (Option Int) := none
  scaleMinLabel : Option (Option String) := none
  scaleMaxLabel : Option (Option String) := none

/-- Spread `{ ...field, ...updates }`. -/
def applyFieldUpdates (f : BuilderField) (u : FieldUpdates) : BuilderField :=
  { f with
    name := u.name.getD f.name
    label := u.label.getD f.label
    description := u.description.getD f.description
    options := u.options.getD f.options
    requiredFlag := u.requiredFlag.getD f.requiredFlag
    scaleMin := u.scaleMin.getD f.scaleMin
    scaleMax := u.scaleMax.getD f.scaleMax
    scaleMinLabel := u.scaleMinLabel.getD f.scaleMinLabel
    scaleMaxLabel := u.scaleMaxLabel.getD f.scaleMaxLabel }

/-- The operation `updateField(fieldId, updates)`: patch the matching descriptor. -/
def updateField (fid : String) (u : FieldUpdates) (fields : List BuilderField) :
    List BuilderField :=
  fields.map (fun f => if f.id == fid then applyFieldUpdates f u else f)

/-- A schema built by a sequence of `addField` operations alone, each
given as a clock value and a field type. -/
def buildByAdds (ops : List (String × String)) : List BuilderField :=
  ops.foldl (fun fs p => addField p.1 p.2 fs) []

/-! ## Derived notions used by the theorems -/

/-- The accepted value a single `updates` entry contributes to field
`f`: its key must map to `f` and its value must pass extraction and
the acceptance guard. -/
def contribOfEntry (e : String × JSVal) (f : FieldName) : Option String :=
  match fieldMappings e.1 with
  | some f2 => if f2 = f then acceptedString (extractValue e.2) else none
  | none => none

/-- The last value accepted for field `f` over a whole `updates`
payload (later entries override earlier ones, as in the forEach loop). -/
def lastAcceptedUpdate (entries : List (String × JSVal)) (f : FieldName) :
    Option String :=
  entries.foldl
    (fun acc e =>
      match contribOfEntry e f with
      | some s => some s
      | none => acc)
    none

/-! ## Helper lemmas -/

theorem getField_setField (st : LegacyFormData) (f g : FieldName) (v : String) :
    getField (setField st f v) g = if f = g then v else getField st g := by
  cases f <;> cases g <;> rfl

theorem getField_processEntry (st : LegacyFormData) (e : String × JSVal)
    (f : FieldName) :
    getField (processEntry st e) f = (contribOfEntry e f).getD (getField st f) := by
  unfold processEntry contribOfEntry
  cases fieldMappings e.1 with
  | none => rfl
  | some f2 =>
    cases acceptedString (extractValue e.2) with
    | none => cases hf : decide (f2 = f) <;> simp_all
    | some cv =>
      rw [getField_setField]
      by_cases hf : f2 = f <;> simp [hf]

theorem foldl_contrib_acc (f : FieldName) :
    ∀ (es : List (String × JSVal)) (a : Option String),
      es.foldl (fun acc e =>
        match contribOfEntry e f with
        | some s => some s
        | none => acc) a =
      match es.foldl (fun acc e =>
        match contribOfEntry e f with
        | some s => some s
        | none => acc) none with
      | some s => some s
      | none => a := by
  intro es
  induction es with
  | nil => intro a; rfl
  | cons e es ih =>
    intro a
    simp only [List.foldl]
    rw [ih, ih (match contribOfEntry e f with
      | some s => some s
      | none => (none : Option String))]
    cases es.foldl (fun acc e =>
      match contribOfEntry e f with
      | some s => some s
      | none => acc) none with
    | some s => rfl
    | none => cases contribOfEntry e f <;> rfl

theorem lastAcceptedUpdate_cons (e : String × JSVal)
    (es : List (String × JSVal)) (f : FieldName) :
    lastAcceptedUpdate (e :: es) f =
      match lastAcceptedUpdate es f with
      | some s => some s
      | none => contribOfEntry e f := by
  unfold lastAcceptedUpdate
  simp only [List.foldl]
  rw [foldl_contrib_acc]
  cases es.foldl (fun acc e =>
    match contribOfEntry e f with
    | some s => some s
    | none => acc) none with
  | some s => rfl
  | none => cases contribOfEntry e f <;> rfl

/-- The per-field characterization of the entries loop: a field ends up
at its last accepted update, or keeps its previous value when no entry
is accepted for it. -/
theorem getField_applyUpdatesLoop (entries : List (String × JSVal))
    (st : LegacyFormData) (f : FieldName) :
    getField (applyUpdatesLoop st entries) f =
      (lastAcceptedUpdate entries f).getD (getField st f) := by
  induction entries generalizing st with
  | nil => rfl
  | cons e es ih =>
    show getField (applyUpdatesLoop (processEntry st e) es) f = _
    rw [ih, lastAcceptedUpdate_cons, getField_processEntry]
    cases lastAcceptedUpdate es f with
    | some s => rfl
    | none => cases contribOfEntry e f <;> rfl

/-! Injectivity of the decimal rendering `Nat.repr`, needed for the
uniqueness of builder field names. -/

theorem toDigitsCore_append10 :
    ∀ (fuel n : Nat) (ds : List Char),
      Nat.toDigitsCore 10 fuel n ds = Nat.toDigitsCore 10 fuel n [] ++ ds := by
  intro fuel
  induction fuel with
  | zero => intro n ds; rfl
  | succ f ih =>
    intro n ds
    simp only [Nat.toDigitsCore]
    by_cases h : n / 10 = 0
    · simp [h]
    · simp only [h, if_false]
      rw [ih (n / 10) (Nat.digitChar (n % 10) :: ds),
        ih (n / 10) [Nat.digitChar (n % 10)], List.append_assoc,
        List.singleton_append]

theorem toDigitsCore_fuel_eq :
    ∀ (fuel fuel2 n : Nat), n < fuel → n < fuel2 →
      Nat.toDigitsCore 10 fuel n [] = Nat.toDigitsCore 10 fuel2 n [] := by
  intro fuel
  induction fuel with
  | zero => intro fuel2 n h; omega
  | succ f ih =>
    intro fuel2 n h h2
    cases fuel2 with
    | zero => omega
    | succ g =>
      simp only [Nat.toDigitsCore]
      by_cases hz : n / 10 = 0
      · simp [hz]
      · simp only [hz, if_false]
        have hn : 0 < n := by
          rcases Nat.eq_zero_or_pos n with h0 | h0
          · subst h0; simp at hz
          · exact h0
        have hlt : n / 10 < n := Nat.div_lt_self hn (by norm_num)
        rw [toDigitsCore_append10 f, toDigitsCore_append10 g,
          ih g (n / 10) (by omega) (by omega)]

/-- The structural unfolding of `Nat.toDigits 10`: last decimal digit
appended to the digits of `n / 10`. -/
theorem toDigits10_eq (n : Nat) :
    Nat.toDigits 10 n =
      if n / 10 = 0 then [Nat.digitChar (n % 10)]
      else Nat.toDigits 10 (n / 10) ++ [Nat.digitChar (n % 10)] := by
  show Nat.toDigitsCore 10 (n + 1) n [] = _
  simp only [Nat.toDigitsCore]
  by_cases hz : n / 10 = 0
  · simp [hz]
  · simp only [hz, if_false]
    have hn : 0 < n := by
      rcases Nat.eq_zero_or_pos n with h0 | h0
      · subst h0; simp at hz
      · exact h0
    have hlt : n / 10 < n := Nat.div_lt_self hn (by norm_num)
    rw [toDigitsCore_append10, toDigitsCore_fuel_eq n (n / 10 + 1) (n / 10)
      (by omega) (by omega)]
    rfl

theorem toDigits10_ne_nil (n : Nat) : Nat.toDigits 10 n ≠ [] := by
  rw [toDigits10_eq]
  by_cases hz : n / 10 = 0 <;> simp [hz]

theorem digitChar_inj_fin :
    ∀ a b : Fin 10, Nat.digitChar a.val = Nat.digitChar b.val → a = b := by
  decide

theorem digitChar_inj_lt (a b : Nat) (ha : a < 10) (hb : b < 10)
    (h : Nat.digitChar a = Nat.digitChar b) : a = b := by
  have := digitChar_inj_fin ⟨a, ha⟩ ⟨b, hb⟩ h
  exact congrArg Fin.val this

theorem toDigits10_inj :
    ∀ m n : Nat, Nat.toDigits 10 m = Nat.toDigits 10 n → m = n := by
  intro m
  induction m using Nat.strong_induction_on with
  | _ m ih =>
    intro n h
    rw [toDigits10_eq m, toDigits10_eq n] at h
    by_cases hm : m / 10 = 0 <;> by_cases hn : n / 10 = 0
    · simp only [hm, hn, if_true] at h
      have := digitChar_inj_lt (m % 10) (n % 10)
        (Nat.mod_lt _ (by norm_num)) (Nat.mod_lt _ (by norm_num))
        (List.head_eq_of_cons_eq h)
      omega
    · exfalso
      simp only [hm, hn, if_true, if_false] at h
      have hlen := congrArg List.length h
      simp only [List.length_append, List.length_cons, List.length_nil] at hlen
      have hz : (Nat.toDigits 10 (n / 10)).length = 0 := by omega
      exact toDigits10_ne_nil (n / 10) (List.length_eq_zero.mp hz)
    · exfalso
      simp only [hm, hn, if_true, if_false] at h
      have hlen := congrArg List.length h
      simp only [List.length_append, List.length_cons, List.length_nil] at hlen
      have hz : (Nat.toDigits 10 (m / 10)).length = 0 := by omega
      exact toDigits10_ne_nil (m / 10) (List.length_eq_zero.mp hz)
    · simp only [hm, hn, if_false] at h
      have hsplit := List.append_inj' h (by rfl)
      have hmod := digitChar_inj_lt (m % 10) (n % 10)
        (Nat.mod_lt _ (by norm_num)) (Nat.mod_lt _ (by norm_num))
        (List.head_eq_of_cons_eq hsplit.2)
      have hpos : 0 < m := by
        rcases Nat.eq_zero_or_pos m with h0 | h0
        · subst h0; simp at hm
        · exact h0
      have hdiv := ih (m / 10) (Nat.div_lt_self hpos (by norm_num)) (n / 10) hsplit.1
      omega

theorem natRepr_inj (m n : Nat) (h : Nat.repr m = Nat.repr n) : m = n := by
  apply toDigits10_inj
  have := congrArg String.data h
  simpa [Nat.repr, List.asString] using this

theorem string_append_left_cancel (s a b : String)
    (h : s ++ a = s ++ b) : a = b := by
  cases s with
  | mk sd =>
    cases a with
    | mk ad =>
      cases b with
      | mk bd =>
        have hd := congrArg String.data h
        simp only [String.data] at hd
        have : sd ++ ad = sd ++ bd := hd
        have := List.append_cancel_left this
        simp [this]

theorem builderName_inj (a b : Nat)
    (h : "field_" ++ Nat.repr a = "field_" ++ Nat.repr b) : a = b :=
  natRepr_inj a b (string_append_left_cancel _ _ _ h)

/-- The names produced by a run of `addField` operations over an
arbitrary starting schema: one fresh `field_{i}` per operation,
numbered from the starting length. -/
theorem addFieldRun_names :
    ∀ (ops : List (String × String)) (fs : List BuilderField),
      (ops.foldl (fun l p => addField p.1 p.2 l) fs).map (fun f => f.name) =
        fs.map (fun f => f.name) ++
          (List.range ops.length).map
            (fun i => "field_" ++ Nat.repr (fs.length + i + 1)) := by
  intro ops
  induction ops with
  | nil => intro fs; simp
  | cons p ops ih =>
    intro fs
    show (ops.foldl (fun l p => addField p.1 p.2 l)
        (addField p.1 p.2 fs)).map (fun f => f.name) = _
    rw [ih]
    have hlen : (addField p.1 p.2 fs).length = fs.length + 1 := by
      simp [addField]
    have hmap : (addField p.1 p.2 fs).map (fun f => f.name) =
        fs.map (fun f => f.name) ++ ["field_" ++ Nat.repr (fs.length + 1)] := by
      simp [addField]
    rw [hmap, hlen]
    have hfun : ((fun i => "field_" ++ Nat.repr (fs.length + i + 1)) ∘ Nat.succ) =
        (fun i => "field_" ++ Nat.repr (fs.length + 1 + i + 1)) := by
      funext i
      simp only [Function.comp]
      congr 2
      omega
    simp only [List.length_cons, List.range_succ_eq_map, List.map_cons,
      List.map_map, hfun, List.append_assoc, List.singleton_append,
      Nat.add_zero]

theorem assocGet_cons (p : String × JSVal) (l : List (String × JSVal))
    (k : String) :
    assocGet (p :: l) k = if p.1 == k then some p.2 else assocGet l k := by
  cases hp : p.1 == k <;> simp [assocGet, List.find?, hp]

theorem assocSet_cons (p : String × JSVal) (l : List (String × JSVal))
    (k : String) (v : JSVal) :
    assocSet (p :: l) k v =
      if p.1 == k then
        (k, v) :: l.map (fun q => if q.1 == k then (k, v) else q)
      else p :: assocSet l k v := by
  by_cases hp : p.1 == k
  · have hpe : p.1 = k := by simpa using hp
    simp [assocSet, List.any_cons, hpe]
  · have hpe : ¬p.1 = k := by simpa using hp
    by_cases hl : l.any (fun q => q.1 == k) <;>
      simp [assocSet, List.any_cons, hp, hl, hpe]

theorem assocGet_assocSet (l : List (String × JSVal)) (k : String) (v : JSVal) :
    assocGet (assocSet l k v) k = some v := by
  induction l with
  | nil => simp [assocSet, assocGet, List.find?]
  | cons p l ih =>
    rw [assocSet_cons]
    by_cases hp : p.1 == k
    · rw [if_pos hp, assocGet_cons]
      simp
    · rw [if_neg hp, assocGet_cons, if_neg hp]
      exact ih

theorem processEntry_mapped (st : LegacyFormData) (k : String) (v : JSVal)
    (f : FieldName) (hk : fieldMappings k = some f) :
    processEntry st (k, v) =
      match acceptedString (extractValue v) with
      | none => st
      | some cv => setField st f cv := by
  unfold processEntry
  rw [hk]

theorem acceptedString_eq_some (v : JSVal) (cv : String)
    (h : acceptedString v = some cv) :
    ∃ s, v = JSVal.str s ∧ s ≠ "" ∧ strTrim s ≠ "" ∧
      s ≠ "[object Object]" ∧ cv = strTrim s := by
  cases v with
  | str s =>
    rw [show acceptedString (JSVal.str s) =
        if !s.isEmpty && !(strTrim s).isEmpty && s != "[object Object]" then
          some (strTrim s)
        else none from rfl] at h
    by_cases hguard : !s.isEmpty && !(strTrim s).isEmpty && s != "[object Object]"
    · rw [if_pos hguard] at h
      injection h with h
      refine ⟨s, rfl, ?_, ?_, ?_, h.symm⟩
      · intro h0
        rw [h0] at hguard
        simp at hguard
        exact absurd hguard.1 (by decide)
      · intro h0
        rw [h0] at hguard
        simp at hguard
        exact absurd hguard.1.2 (by decide)
      · intro h0
        rw [h0] at hguard
        simp at hguard
    · rw [if_neg hguard] at h
      cases h
  | num n => simp [acceptedString] at h
  | boolean b => simp [acceptedString] at h
  | null => simp [acceptedString] at h
  | undefined => simp [acceptedString] at h
  | obj fields => simp [acceptedString] at h

/-! ## Claims -/

/-- C1 (counterexample): an update whose trim equals the artifact
`[object Object]` but which carries surrounding whitespace is accepted
by the legacy merge and overwrites the existing non-empty value, so the
acceptance guard is not a check on the trimmed value. -/
theorem legacy_merge_trimmed_artifact_counterexample :
    strTrim " [object Object] " = "[object Object]" ∧
    updateLegacyFormData ⟨"Alice", "", "", ""⟩
        (JSVal.obj [("full_name", JSVal.str " [object Object] ")]) =
      ⟨"[object Object]", "", "", ""⟩ ∧
    ("[object Object]" : String) ≠ "Alice" := by
  refine ⟨by decide, by decide, by decide⟩

/-- C1 (amended): a reported field of the legacy merge overwrites the
stored value only when the extracted value is a non-empty string whose
trim is non-empty and which, before trimming, is not exactly
`"[object Object]"`; the stored value is then the trimmed string.  In
particular an update carrying an empty string never overwrites an
existing value. -/
theorem legacy_merge_accept_guard :
    (∀ (st : LegacyFormData) (k : String) (v : JSVal) (f : FieldName),
        fieldMappings k = some f →
        getField (applyUpdatesLoop st [(k, v)]) f ≠ getField st f →
        ∃ s : String, extractValue v = JSVal.str s ∧ s ≠ "" ∧ strTrim s ≠ "" ∧
          s ≠ "[object Object]" ∧
          getField (applyUpdatesLoop st [(k, v)]) f = strTrim s) ∧
    (∀ (st : LegacyFormData) (k : String),
        applyUpdatesLoop st [(k, JSVal.str "")] = st) := by
  constructor
  · intro st k v f hk hne
    have hloop : applyUpdatesLoop st [(k, v)] = processEntry st (k, v) := rfl
    rw [hloop] at hne ⊢
    rw [processEntry_mapped st k v f hk] at hne ⊢
    cases hacc : acceptedString (extractValue v) with
    | none => rw [hacc] at hne; exact absurd rfl hne
    | some cv =>
      obtain ⟨s, hv, hs1, hs2, hs3, hcv⟩ := acceptedString_eq_some _ _ hacc
      refine ⟨s, hv, hs1, hs2, hs3, ?_⟩
      show getField (setField st f cv) f = strTrim s
      rw [getField_setField, if_pos rfl, hcv]
  · intro st k
    show processEntry st (k, JSVal.str "") = st
    unfold processEntry
    cases fieldMappings k with
    | none => rfl
    | some f => rfl

/-- Witness for `legacy_merge_accept_guard` at the update
`full_name: " Bob "` over an empty form. -/
theorem legacy_merge_accept_guard_witness :
    ∃ s : String, extractValue (JSVal.str " Bob ") = JSVal.str s ∧ s ≠ "" ∧
      strTrim s ≠ "" ∧ s ≠ "[object Object]" ∧
      getField (applyUpdatesLoop ⟨"", "", "", ""⟩
        [("full_name", JSVal.str " Bob ")]) FieldName.fullName = strTrim s :=
  legacy_merge_accept_guard.1 ⟨"", "", "", ""⟩ "full_name" (JSVal.str " Bob ")
    FieldName.fullName (by decide) (by decide)

/-- C2 (counterexample): in the legacy merge a wrapper
`{value: "X", status: "pending"}` does not leave the field unchanged:
the `||` chain takes `fieldData.value` before the status is ever
consulted, so the field is set to `"X"`. -/
theorem legacy_merge_pending_wrapper_counterexample :
    updateLegacyFormData ⟨"Alice", "", "", ""⟩
        (JSVal.obj [("full_name",
          JSVal.obj [("value", JSVal.str "X"), ("status", JSVal.str "pending")])]) =
      ⟨"X", "", "", ""⟩ ∧
    ("X" : String) ≠ "Alice" := by
  refine ⟨by decide, by decide⟩

/-- C2 (amended): the dynamic `form_summary` merge honours the status
flag — a truthy wrapped value is applied when the status is
`"collected"` and the payload is ignored when it is `"pending"` — while
the legacy merge applies a truthy `value` property regardless of the
wrapper status. -/
theorem wrapper_status_handling :
    (∀ (st : LegacyFormData) (k : String) (f : FieldName) (s status : String),
        fieldMappings k = some f → s ≠ "" → strTrim s ≠ "" →
        s ≠ "[object Object]" →
        applyUpdatesLoop st
            [(k, JSVal.obj [("value", JSVal.str s), ("status", JSVal.str status)])] =
          setField st f (strTrim s)) ∧
    (∀ (prev : List (String × JSVal)) (n : String) (v : JSVal),
        v.truthy = true →
        assocGet (mergeDynFormData prev
            [(n, JSVal.obj [("value", v), ("status", JSVal.str "collected")])]) n =
          some v) ∧
    (∀ (prev : List (String × JSVal)) (n : String) (v : JSVal),
        mergeDynFormData prev
            [(n, JSVal.obj [("value", v), ("status", JSVal.str "pending")])] =
          prev) := by
  refine ⟨?_, ?_, ?_⟩
  · intro st k f s status hk hs1 hs2 hs3
    show processEntry st (k, _) = _
    rw [processEntry_mapped st k _ f hk]
    have hext : extractValue
        (JSVal.obj [("value", JSVal.str s), ("status", JSVal.str status)]) =
        JSVal.str s := by
      have hne : s.isEmpty = false := by
        cases he : s.isEmpty
        · rfl
        · exact absurd ((String.isEmpty_iff _).mp he) hs1
      simp [extractValue, JSVal.typeOf, JSVal.truthy, JSVal.getProp,
        List.find?, jsOr, hne]
    rw [hext]
    have hne : s.isEmpty = false := by
      cases he : s.isEmpty
      · rfl
      · exact absurd ((String.isEmpty_iff _).mp he) hs1
    have htr : (strTrim s).isEmpty = false := by
      cases he : (strTrim s).isEmpty
      · rfl
      · exact absurd ((String.isEmpty_iff _).mp he) hs2
    have hbne : (s != "[object Object]") = true := by
      simpa using hs3
    show (match acceptedString (JSVal.str s) with
      | none => st
      | some cv => setField st f cv) = setField st f (strTrim s)
    unfold acceptedString
    simp [hne, htr, hbne]
  · intro prev n v hv
    show assocGet ((collectDynUpdates _).foldl
      (fun acc p => assocSet acc p.1 p.2) prev) n = some v
    have hcol : collectDynUpdates
        [(n, JSVal.obj [("value", v), ("status", JSVal.str "collected")])] =
        [(n, v)] := by
      simp [collectDynUpdates, JSVal.getProp, List.find?, JSVal.eqStr, hv,
        assocSet]
    rw [hcol]
    exact assocGet_assocSet prev n v
  · intro prev n v
    have hcol : collectDynUpdates
        [(n, JSVal.obj [("value", v), ("status", JSVal.str "pending")])] =
        [] := by
      simp [collectDynUpdates, JSVal.getProp, List.find?, JSVal.eqStr]
    show (collectDynUpdates _).foldl (fun acc p => assocSet acc p.1 p.2) prev = prev
    rw [hcol]
    rfl

/-- Witness for `wrapper_status_handling`: a collected wrapper applied
through the legacy merge and through the dynamic merge. -/
theorem wrapper_status_handling_witness :
    applyUpdatesLoop ⟨"", "", "", ""⟩
        [("email", JSVal.obj
          [("value", JSVal.str "a@b.c"), ("status", JSVal.str "collected")])] =
      setField ⟨"", "", "", ""⟩ FieldName.email (strTrim "a@b.c") ∧
    assocGet (mergeDynFormData []
        [("color", JSVal.obj
          [("value", JSVal.str "red"), ("status", JSVal.str "collected")])])
      "color" = some (JSVal.str "red") :=
  ⟨wrapper_status_handling.1 ⟨"", "", "", ""⟩ "email" FieldName.email
      "a@b.c" "collected" (by decide) (by decide) (by decide) (by decide),
    wrapper_status_handling.2.1 [] "color" (JSVal.str "red") (by decide)⟩

/-- C3 (counterexample): add two fields, remove the first, add again —
the builder names the new field from the current count and produces two
fields both named `field_2`. -/
theorem builder_duplicate_name_counterexample :
    ((addField "1003" "date"
        (removeField "1001"
          (addField "1002" "email"
            (addField "1001" "short_answer" [])))).map (fun f => f.name)) =
      ["field_2", "field_2"] ∧
    ¬ ((addField "1003" "date"
        (removeField "1001"
          (addField "1002" "email"
            (addField "1001" "short_answer" [])))).map (fun f => f.name)).Nodup := by
  refine ⟨by decide, by decide⟩

/-- C3 (amended): field names are pairwise distinct in every schema
built by `addField` operations alone (no removal, no rename): the
`i`-th added field is named `field_{i+1}`. -/
theorem builder_addOnly_names_nodup (ops : List (String × String)) :
    ((buildByAdds ops).map (fun f => f.name)).Nodup := by
  unfold buildByAdds
  rw [addFieldRun_names]
  simp only [List.map_nil, List.nil_append, List.length_nil, Nat.zero_add]
  apply List.Nodup.map
  · intro a b hab
    have := builderName_inj (a + 1) (b + 1) hab
    omega
  · exact List.nodup_range _



/-- C4 (counterexample): for an event carrying two final results
`"hello"` and `"world"`, the handler emits only `e.results[0][0]`,
not the concatenation of the final-result texts. -/
theorem mic_transcript_not_concatenation :
    onResultTranscript
        ⟨[⟨[⟨"hello", 900⟩], true⟩, ⟨[⟨"world", 900⟩], true⟩]⟩ =
      some "hello" ∧
    specFinalTranscript
        ⟨[⟨[⟨"hello", 900⟩], true⟩, ⟨[⟨"world", 900⟩], true⟩]⟩ =
      "helloworld" ∧
    ("hello" : String) ≠ "helloworld" := by
  refine ⟨by decide, by decide, by decide⟩

/-- C4 (amended): the utterance the microphone handler forwards to the
backend is exactly the first alternative of the first result of the
event; there is no app-level silence timer and no accumulation —
stopping is delegated to the recognition engine. -/
theorem mic_transcript_first_alternative :
    ∀ (st : MicState) (e : SREvent) (ts : String),
      (micResultStep st e ts).map (fun r => r.2) = onResultTranscript e ∧
      (∀ t, onResultTranscript e = some t →
        micResultStep st e ts =
          some ({ st with messages := st.messages ++
              [{ text := t, who := "user", timestamp := ts, isVoice := true }] },
            t)) := by
  intro st e ts
  constructor
  · cases h : onResultTranscript e <;> simp [micResultStep, h]
  · intro t ht
    simp [micResultStep, ht]

/-- Witness for `mic_transcript_first_alternative` at a one-result
event. -/
theorem mic_transcript_first_alternative_witness :
    micResultStep ⟨[], "listening"⟩ ⟨[⟨[⟨"hi there", 500⟩], false⟩]⟩ "t0" =
      some (⟨[{ text := "hi there", who := "user", timestamp := "t0",
                isVoice := true }], "listening"⟩, "hi there") :=
  (mic_transcript_first_alternative ⟨[], "listening"⟩
      ⟨[⟨[⟨"hi there", 500⟩], false⟩]⟩ "t0").2 "hi there" (by decide)

/-- C5 (counterexample): an event whose only alternative has empty
text, zero confidence and is not final — failing the claimed
speech-detected condition for every positive length threshold — is
still processed: the handler appends a user message and forwards the
transcript, instead of causing no transition. -/
theorem mic_no_gating_counterexample :
    micResultStep ⟨[], "listening"⟩ ⟨[⟨[⟨"", 0⟩], false⟩]⟩ "t1" =
      some (⟨[{ text := "", who := "user", timestamp := "t1",
                isVoice := true }], "listening"⟩, "") ∧
    (⟨[{ text := "", who := "user", timestamp := "t1", isVoice := true }],
        "listening"⟩ : MicState) ≠ ⟨[], "listening"⟩ := by
  refine ⟨by decide, by decide⟩

/-- C5 (amended): the handler has no speech-detected state and applies
no gating at all: every result event is processed identically whatever
its confidence, finality, extra alternatives or extra results — the
first transcript is appended as a user message and forwarded. -/
theorem mic_event_processed_unconditionally :
    ∀ (st : MicState) (ts t : String) (conf : Int) (fin : Bool)
      (alts : List SRAlternative) (rest : List SRResult),
      micResultStep st ⟨⟨⟨t, conf⟩ :: alts, fin⟩ :: rest⟩ ts =
        some ({ st with messages := st.messages ++
            [{ text := t, who := "user", timestamp := ts, isVoice := true }] },
          t) := by
  intro st ts t conf fin alts rest
  rfl

/-- C6: the legacy merge is total and per-field defensive: a non-object
payload changes nothing, a field for which no entry passes the
acceptance guard keeps its previous value, and a field whose last
accepted entry carries `s` ends at `s` — malformed and well-formed
fields of the same payload are independent. -/
theorem legacy_merge_per_field_defensive :
    (∀ (st : LegacyFormData) (v : JSVal),
        v.typeOf ≠ "object" ∨ v = JSVal.null →
        updateLegacyFormData st v = st) ∧
    (∀ (st : LegacyFormData) (entries : List (String × JSVal)) (f : FieldName),
        lastAcceptedUpdate entries f = none →
        getField (applyUpdatesLoop st entries) f = getField st f) ∧
    (∀ (st : LegacyFormData) (entries : List (String × JSVal)) (f : FieldName)
        (s : String),
        lastAcceptedUpdate entries f = some s →
        getField (applyUpdatesLoop st entries) f = s) := by
  refine ⟨?_, ?_, ?_⟩
  · intro st v hv
    cases v with
    | obj fields =>
      rcases hv with h | h
      · exact absurd rfl h
      · cases h
    | str s => rfl
    | num n => rfl
    | boolean b => rfl
    | null => rfl
    | undefined => rfl
  · intro st entries f h
    rw [getField_applyUpdatesLoop, h]
    rfl
  · intro st entries f s h
    rw [getField_applyUpdatesLoop, h]
    rfl

/-- Witness for `legacy_merge_per_field_defensive`: a payload with a
malformed email (`null`) and a well-formed full name merges the name
and keeps the email. -/
theorem legacy_merge_per_field_defensive_witness :
    updateLegacyFormData ⟨"", "old@x.y", "", ""⟩ (JSVal.str "junk") =
      ⟨"", "old@x.y", "", ""⟩ ∧
    getField (applyUpdatesLoop ⟨"", "old@x.y", "", ""⟩
        [("email", JSVal.null), ("full_name", JSVal.str " Bob ")])
      FieldName.email = getField ⟨"", "old@x.y", "", ""⟩ FieldName.email ∧
    getField (applyUpdatesLoop ⟨"", "old@x.y", "", ""⟩
        [("email", JSVal.null), ("full_name", JSVal.str " Bob ")])
      FieldName.fullName = "Bob" :=
  ⟨legacy_merge_per_field_defensive.1 ⟨"", "old@x.y", "", ""⟩
      (JSVal.str "junk") (Or.inl (by decide)),
    legacy_merge_per_field_defensive.2.1 ⟨"", "old@x.y", "", ""⟩
      [("email", JSVal.null), ("full_name", JSVal.str " Bob ")]
      FieldName.email (by decide),
    legacy_merge_per_field_defensive.2.2 ⟨"", "old@x.y", "", ""⟩
      [("email", JSVal.null), ("full_name", JSVal.str " Bob ")]
      FieldName.fullName "Bob" (by decide)⟩

/-- C7: every speech recognition error sets the error status and
appends one advisory message embedding the error code, and the three
error classes — permission failure (`not-allowed`), no speech
(`no-speech`), capture failure (`audio-capture`) — yield pairwise
distinct advisories. -/
theorem mic_error_advisories :
    (∀ (st : MicState) (err ts : String),
        micErrorStep st err ts =
          { messages := st.messages ++
              [{ text := micErrorText err, who := "agent", timestamp := ts,
                 isError := true }]
            status := "error" }) ∧
    micErrorText "not-allowed" ≠ micErrorText "no-speech" ∧
    micErrorText "not-allowed" ≠ micErrorText "audio-capture" ∧
    micErrorText "no-speech" ≠ micErrorText "audio-capture" := by
  refine ⟨fun st err ts => rfl, by decide, by decide, by decide⟩

/-- C8: a failing chat turn (non-ok response or thrown fetch/parse
error) appends exactly one inline error message, sets the status flag
to `"error"`, and leaves the form data and session status unchanged. -/
theorem legacy_chat_failure_effects :
    ∀ (st : LegacyAppState) (o : FetchOutcome) (ts m : String),
      outcomeErrMessage o = some m →
      (legacyBackendChatStep st o ts).messages =
          st.messages ++
            [{ text := connectionErrorText m, who := "agent", timestamp := ts,
               isError := true }] ∧
      (legacyBackendChatStep st o ts).status = "error" ∧
      (legacyBackendChatStep st o ts).legacyFormData = st.legacyFormData ∧
      (legacyBackendChatStep st o ts).sessionStatus = st.sessionStatus := by
  intro st o ts m hm
  cases o with
  | success data => cases hm
  | httpFailure code statusText =>
    injection hm with hm
    subst hm
    exact ⟨rfl, rfl, rfl, rfl⟩
  | thrown msg =>
    injection hm with hm
    subst hm
    exact ⟨rfl, rfl, rfl, rfl⟩

/-- Witness for `legacy_chat_failure_effects` at a rejected fetch. -/
theorem legacy_chat_failure_effects_witness :
    (legacyBackendChatStep
        ⟨[], "idle", ⟨"", "", "", ""⟩, ⟨false, none, 0⟩⟩
        (FetchOutcome.thrown "Failed to fetch") "t2").messages =
        [] ++
          [{ text := connectionErrorText "Failed to fetch", who := "agent",
             timestamp := "t2", isError := true }] ∧
    (legacyBackendChatStep
        ⟨[], "idle", ⟨"", "", "", ""⟩, ⟨false, none, 0⟩⟩
        (FetchOutcome.thrown "Failed to fetch") "t2").status = "error" ∧
    (legacyBackendChatStep
        ⟨[], "idle", ⟨"", "", "", ""⟩, ⟨false, none, 0⟩⟩
        (FetchOutcome.thrown "Failed to fetch") "t2").legacyFormData =
      ⟨"", "", "", ""⟩ ∧
    (legacyBackendChatStep
        ⟨[], "idle", ⟨"", "", "", ""⟩, ⟨false, none, 0⟩⟩
        (FetchOutcome.thrown "Failed to fetch") "t2").sessionStatus =
      ⟨false, none, 0⟩ :=
  legacy_chat_failure_effects
    ⟨[], "idle", ⟨"", "", "", ""⟩, ⟨false, none, 0⟩⟩
    (FetchOutcome.thrown "Failed to fetch") "t2" "Failed to fetch" rfl

/-- C9: after the entries loop of a legacy merge, a phone value with no
`(` that strips to exactly 10 digits is rewritten to
`(ddd) ddd-dddd`; any other phone value leaves the merge result
untouched.  The step runs on every merged payload, whether or not a
phone entry was reported. -/
theorem legacy_merge_phone_normalization :
    ∀ (st : LegacyFormData) (entries : List (String × JSVal)),
      (strContainsChar (applyUpdatesLoop st entries).phone '(' = false →
        (digitsOnly (applyUpdatesLoop st entries).phone).length = 10 →
        (updateLegacyFormData st (JSVal.obj entries)).phone =
          "(" ++ String.mk ((digitsOnly (applyUpdatesLoop st entries).phone).take 3)
              ++ ") "
              ++ String.mk (((digitsOnly (applyUpdatesLoop st entries).phone).drop 3).take 3)
              ++ "-"
              ++ String.mk ((digitsOnly (applyUpdatesLoop st entries).phone).drop 6)) ∧
      (strContainsChar (applyUpdatesLoop st entries).phone '(' = true ∨
          (digitsOnly (applyUpdatesLoop st entries).phone).length ≠ 10 →
        (updateLegacyFormData st (JSVal.obj entries)).phone =
          (applyUpdatesLoop st entries).phone) := by
  intro st entries
  constructor
  · intro h1 h2
    show (formatPhoneStep (applyUpdatesLoop st entries)).phone = _
    have hne : (applyUpdatesLoop st entries).phone.isEmpty = false := by
      cases he : (applyUpdatesLoop st entries).phone.isEmpty
      · rfl
      · exfalso
        rw [(String.isEmpty_iff _).mp he] at h2
        simp [digitsOnly] at h2
    simp only [formatPhoneStep, hne, h1, Bool.not_false, Bool.and_self,
      if_true]
    simp [h2]
  · intro h
    show (formatPhoneStep (applyUpdatesLoop st entries)).phone = _
    rcases h with h | h
    · simp [formatPhoneStep, h]
    · by_cases hemp : (applyUpdatesLoop st entries).phone.isEmpty
      · simp [formatPhoneStep, hemp]
      · by_cases hpar : strContainsChar (applyUpdatesLoop st entries).phone '('
        · simp [formatPhoneStep, hpar]
        · simp [formatPhoneStep, hemp, hpar, h]

/-- Witness for `legacy_merge_phone_normalization`: a dashed 10-digit
phone is rewritten, a 2-digit phone is left alone. -/
theorem legacy_merge_phone_normalization_witness :
    (updateLegacyFormData ⟨"", "", "", ""⟩
        (JSVal.obj [("phone", JSVal.str "123-456-7890")])).phone =
      "(123) 456-7890" ∧
    (updateLegacyFormData ⟨"", "", "", ""⟩
        (JSVal.obj [("phone", JSVal.str "12")])).phone =
      (applyUpdatesLoop ⟨"", "", "", ""⟩ [("phone", JSVal.str "12")]).phone :=
  ⟨((legacy_merge_phone_normalization ⟨"", "", "", ""⟩
        [("phone", JSVal.str "123-456-7890")]).1 (by decide) (by decide)).trans
      (by decide),
    (legacy_merge_phone_normalization ⟨"", "", "", ""⟩
        [("phone", JSVal.str "12")]).2 (Or.inr (by decide))⟩

/-- C10: `handleSend` on input whose trim is empty is a no-op — no
message appended, input not cleared, status unchanged, no request
issued; a turn starts exactly for trimmed non-empty input, carrying the
trimmed message. -/
theorem handleSend_blank_noop :
    (∀ (st : SendState) (ts : String), strTrim st.inputText = "" →
        handleSendStep st ts = (st, none)) ∧
    (∀ (st : SendState) (ts : String), strTrim st.inputText ≠ "" →
        handleSendStep st ts =
          ({ messages := st.messages ++
               [{ text := strTrim st.inputText, who := "user", timestamp := ts }]
             inputText := ""
             status := st.status }, some (strTrim st.inputText))) := by
  constructor
  · intro st ts h
    unfold handleSendStep
    simp [h]
    decide
  · intro st ts h
    have hne : (strTrim st.inputText).isEmpty = false := by
      cases he : (strTrim st.inputText).isEmpty
      · rfl
      · exact absurd ((String.isEmpty_iff _).mp he) h
    unfold handleSendStep
    simp [hne]

/-- Witness for `handleSend_blank_noop`: whitespace-only input changes
nothing; `" hi "` starts a turn with `"hi"`. -/
theorem handleSend_blank_noop_witness :
    handleSendStep ⟨[], "   ", "idle"⟩ "t3" = (⟨[], "   ", "idle"⟩, none) ∧
    handleSendStep ⟨[], " hi ", "idle"⟩ "t4" =
      ({ messages := [] ++
           [{ text := strTrim " hi ", who := "user", timestamp := "t4" }]
         inputText := ""
         status := "idle" }, some (strTrim " hi ")) :=
  ⟨handleSend_blank_noop.1 ⟨[], "   ", "idle"⟩ "t3" (by decide),
    handleSend_blank_noop.2 ⟨[], " hi ", "idle"⟩ "t4" (by decide)⟩
